import Mathlib

/-!
Verification development for the uniplot core: `MultiSeries` normalization
(`uniplot/multi_series.py`) and axis-label layout (`uniplot/axis_labels/label_set.py`).

Modelling conventions:
* IEEE doubles are modelled by `Fl`: either not-a-number, one of the two
  infinities, or a finite value represented exactly as a rational.  The
  base-10 logarithm of a positive rational is not rational, so operations
  that take logarithms are parametrized by an arbitrary function
  `lg : ℚ → ℚ` standing for the finite part of `log10`.
* numpy arrays are modelled as a dtype tag (`int` or `float`) plus a list of
  values; Python exceptions are modelled by `Option`/`none` results.
* Raw constructor input (nested lists, ints, floats, date-like objects) is
  the inductive `Raw`; a date-like element carries its nanosecond-precision
  epoch integer, which is what `pandas.to_datetime(...).astype(np.int64)`
  exposes of it.
-/

set_option maxRecDepth 2000

/-- Model of an IEEE double: not-a-number, negative infinity, positive
infinity, or a finite value (represented exactly as a rational). -/
inductive Fl where
  | nan : Fl
  | ninf : Fl
  | pinf : Fl
  | num (q : ℚ) : Fl
deriving DecidableEq

/-- `numpy.isnan` on a single value. -/
def Fl.isnan : Fl → Bool
  | .nan => true
  | _ => false

/-- Comparison used to model Python/numpy `max`/`min` on values that are not
not-a-number.  Not-a-number is placed at the bottom so the function is total,
but every use filters not-a-number out first, matching `_safe_max`/`_safe_min`. -/
def flLe : Fl → Fl → Bool
  | .nan, _ => true
  | _, .nan => false
  | .ninf, _ => true
  | _, .ninf => false
  | _, .pinf => true
  | .pinf, _ => false
  | .num p, .num q => decide (p ≤ q)

/-- Python `max(a, x)`: keep `a` unless `x` is strictly greater. -/
def fmax (a x : Fl) : Fl := if flLe x a then a else x

/-- Python `min(a, x)`: keep `a` unless `x` is strictly smaller. -/
def fmin (a x : Fl) : Fl := if flLe a x then a else x

/-- Python `max` over a list: raises (`none`) on an empty list, otherwise
scans left to right keeping the largest element seen. -/
def listMax : List Fl → Option Fl
  | [] => none
  | h :: t => some (t.foldl fmax h)

/-- Python `min` over a list; raises (`none`) on an empty list. -/
def listMin : List Fl → Option Fl
  | [] => none
  | h :: t => some (t.foldl fmin h)

/-- numpy dtype, as far as the model needs it: integer or floating point. -/
inductive DType where
  | int : DType
  | float : DType
deriving DecidableEq

/-- A numpy array: a dtype tag plus the stored values. -/
structure NArray where
  dtype : DType
  data : List Fl
deriving DecidableEq

/-- Raw Python input to the `MultiSeries` constructor: an int scalar, a float
scalar, a date/datetime-like scalar carrying its nanosecond epoch integer, or
a sequence of such. -/
inductive Raw where
  | rint (n : ℤ) : Raw
  | rfloat (v : Fl) : Raw
  | rdate (ns : ℤ) : Raw
  | rseq (elems : List Raw) : Raw

/-- Whether `iter(x)` succeeds on the element: only sequences are iterable
among the modelled inputs (ints, floats and dates raise `TypeError`). -/
def isIterable : Raw → Bool
  | .rseq _ => true
  | _ => false

/-- Whether the element is a `datetime.date` (or `datetime.datetime`, a
subclass of `date`). -/
def isDate : Raw → Bool
  | .rdate _ => true
  | _ => false

/-- Embeds `_is_multi_dimensional`: `[iter(x) for x in series]` succeeds
(returns `True`) exactly when every element of the input is iterable; a
non-sequence input, or any non-iterable element, raises `TypeError` inside
the comprehension and yields `False`. -/
def isMultiDimensional : Raw → Bool
  | .rseq l => l.all isIterable
  | _ => false

/-- Embeds `_is_timeseries_ish` for the modelled input shapes: a list whose
elements are all date/datetime-like.  (The `pandas.DatetimeIndex` /
`pandas.Series` branches concern library objects outside the model.)  An
absent input is not a timeseries. -/
def is_timeseries_ish : Option Raw → Bool
  | some (.rseq l) => l.all isDate
  | _ => false

/-- The numeric value of a scalar element, as numpy coerces it. -/
def rawToFl : Raw → Fl
  | .rint n => .num (n : ℚ)
  | .rfloat v => v
  | _ => .nan

/-- Dtype inference of `np.array` on a flat list of scalars: all ints give an
integer array, a mix of ints and floats gives a float array, anything else
(dates, nested sequences: an object or ragged array that `astype(float)`
cannot handle) is modelled as failure. -/
def inferDType (l : List Raw) : Option DType :=
  if l.all (fun e => isIterable e = false && isDate e = false) then
    if l.all (fun e => match e with | .rint _ => true | _ => false) then some .int
    else some .float
  else none

/-- Embeds `_cast_as_numpy_floats` on a flat list: build the numpy array; if
its dtype is already inexact (float) return it, otherwise cast to float.
Either way a successful result is a float array. -/
def cast_as_numpy_floats (l : List Raw) : Option NArray :=
  match inferDType l with
  | none => none
  | some .float => some ⟨.float, l.map rawToFl⟩
  | some .int => some ⟨.float, l.map rawToFl⟩

/-- Casting an arbitrary raw input as a row: only flat sequences are
modelled (a scalar makes a 0-d array, which downstream code cannot use). -/
def castRaw : Raw → Option NArray
  | .rseq l => cast_as_numpy_floats l
  | _ => none

/-- Embeds `_convert_timeseries_to_numpy` on a list input: convert to
nanosecond-precision epoch integers (`astype(np.int64)`) and floor-divide by
`10 ^ 9` (`// 10 ** 9`), leaving an int64 array of whole seconds.  Inputs that
`pd.to_datetime` cannot convert are modelled as failure. -/
def convert_timeseries_to_numpy : Raw → Option NArray
  | .rseq l =>
      if l.all isDate then
        some ⟨.int, l.map (fun e =>
          match e with
          | .rdate ns => Fl.num ((Int.fdiv ns (10 ^ 9) : ℤ) : ℚ)
          | _ => Fl.nan)⟩
      else none
  | _ => none

/-- Embeds `np.arange(1, len + 1, step=1, dtype=int)`: the 1-based integer
index series. -/
def arange (n : ℕ) : NArray :=
  ⟨.int, (List.range n).map (fun k => Fl.num ((k + 1 : ℕ) : ℚ))⟩

/-- Evaluates a list comprehension of fallible computations: the first
failure (exception) aborts the whole comprehension. -/
def mapOpt (f : α → Option β) : List α → Option (List β)
  | [] => some []
  | a :: rest =>
      match f a with
      | none => none
      | some b => (mapOpt f rest).map (fun bs => b :: bs)

/-- The state of a constructed `MultiSeries` object. -/
structure MultiSeries where
  xs : List NArray
  ys : List NArray
  is_multi_dimensional : Bool
  x_is_timeseries : Bool
deriving DecidableEq

/-- Embeds `MultiSeries.__init__`: classify the y input, cast the y rows,
classify the x input, then either generate 1-based index series, convert the
timeseries input, or cast the numeric x input.  `none` models a constructor
exception. -/
def MultiSeries.init (ys : Raw) (xs : Option Raw) : Option MultiSeries :=
  let md := isMultiDimensional ys
  let ysArrs? : Option (List NArray) :=
    if md then
      match ys with
      | .rseq rows => mapOpt castRaw rows
      | _ => none
    else (castRaw ys).map (fun a => [a])
  match ysArrs? with
  | none => none
  | some ysArrs =>
    let ts := is_timeseries_ish xs
    let xsArrs? : Option (List NArray) :=
      match xs with
      | none => some (ysArrs.map (fun a => arange a.data.length))
      | some x =>
        if md then
          match x with
          | .rseq rows =>
              if ts then mapOpt convert_timeseries_to_numpy rows
              else mapOpt castRaw rows
          | _ => none
        else
          if ts then (convert_timeseries_to_numpy x).map (fun a => [a])
          else (castRaw x).map (fun a => [a])
    match xsArrs? with
    | none => none
    | some xsArrs => some ⟨xsArrs, ysArrs, md, ts⟩

/-- Embeds `_safe_max`: drop the not-a-number entries, then take the numpy
maximum, which raises (`none`) on an empty selection. -/
def safe_max (a : NArray) : Option Fl :=
  listMax (a.data.filter (fun v => v.isnan = false))

/-- Embeds `_safe_min`. -/
def safe_min (a : NArray) : Option Fl :=
  listMin (a.data.filter (fun v => v.isnan = false))

/-- The numpy comparison `x <= 0.0` on one value: false for not-a-number,
true for negative infinity. -/
def flLeZero : Fl → Bool
  | .num q => decide (q ≤ 0)
  | .ninf => true
  | _ => false

/-- The masking step `x[x <= 0.0] = np.nan` on one value. -/
def maskNonpos (v : Fl) : Fl := if flLeZero v then .nan else v

/-- `np.log10` on one value, with `lg` standing for the (irrational) finite
logarithm on positive rationals. -/
def np_log10 (lg : ℚ → ℚ) : Fl → Fl
  | .nan => .nan
  | .pinf => .pinf
  | .ninf => .nan
  | .num q => if q < 0 then .nan else if q = 0 then .ninf else .num (lg q)

/-- Embeds `_safe_log10`: cast to float (a fresh float array), set entries
`<= 0` to not-a-number, then apply `np.log10` elementwise. -/
def safe_log10 (lg : ℚ → ℚ) (a : NArray) : NArray :=
  ⟨.float, a.data.map (fun v => np_log10 lg (maskNonpos v))⟩

/-- Embeds `set_x_axis_to_log10`: raises `ValueError` (first component
`true`) and leaves the object untouched when the x axis is a timeseries;
otherwise replaces every x series by its safe log10. -/
def MultiSeries.set_x_axis_to_log10 (lg : ℚ → ℚ) (ms : MultiSeries) :
    Bool × MultiSeries :=
  if ms.x_is_timeseries then (true, ms)
  else (false, { ms with xs := ms.xs.map (safe_log10 lg) })

/-- Embeds `set_y_axis_to_log10`: replaces every y series by its safe log10;
never raises. -/
def MultiSeries.set_y_axis_to_log10 (lg : ℚ → ℚ) (ms : MultiSeries) :
    MultiSeries :=
  { ms with ys := ms.ys.map (safe_log10 lg) }

/-- Embeds `y_max`: the Python `max` of the per-row `_safe_max` values; any
row-level exception, or an empty row list, propagates. -/
def MultiSeries.y_max (ms : MultiSeries) : Option Fl :=
  (mapOpt safe_max ms.ys).bind listMax

/-- Embeds `y_min`. -/
def MultiSeries.y_min (ms : MultiSeries) : Option Fl :=
  (mapOpt safe_min ms.ys).bind listMin

/-- Embeds `x_max`. -/
def MultiSeries.x_max (ms : MultiSeries) : Option Fl :=
  (mapOpt safe_max ms.xs).bind listMax

/-- Embeds `x_min`. -/
def MultiSeries.x_min (ms : MultiSeries) : Option Fl :=
  (mapOpt safe_min ms.xs).bind listMin

/-- All values stored across a list of rows that are not not-a-number. -/
def nonNanValues (arrs : List NArray) : List Fl :=
  (arrs.map NArray.data).flatten.filter (fun v => v.isnan = false)

/-- One decimal digit as a character. -/
def digitChar10 : ℕ → Char
  | 0 => '0'
  | 1 => '1'
  | 2 => '2'
  | 3 => '3'
  | 4 => '4'
  | 5 => '5'
  | 6 => '6'
  | 7 => '7'
  | 8 => '8'
  | 9 => '9'
  | _ => '?'

/-- Decimal digits of a natural number, most significant first.  The fuel
bound of 800 digits is far beyond anything an IEEE double can carry. -/
def natDigitsAux : ℕ → ℕ → List Char → List Char
  | 0, _, acc => acc
  | fuel + 1, n, acc =>
      let acc := digitChar10 (n % 10) :: acc
      let m := n / 10
      if m = 0 then acc else natDigitsAux fuel m acc

/-- Decimal digit characters of a natural number. -/
def natDigitsList (n : ℕ) : List Char := natDigitsAux 800 n []

/-- Decimal string of a natural number. -/
def natStr (n : ℕ) : String := String.mk (natDigitsList n)

/-- Decimal string of an integer. -/
def intStr (n : ℤ) : String := (if n < 0 then "-" else "") ++ natStr n.natAbs

/-- Groups a reversed digit-character list into blocks of three, least
significant block first. -/
def chunk3 : List Char → List (List Char)
  | [] => []
  | a :: b :: c :: rest => [a, b, c] :: chunk3 rest
  | l => [l]

/-- Thousands separation of a plain digit string, as the `,` option of the
Python format mini-language inserts it. -/
def groupDigitsStr (s : String) : String :=
  String.intercalate "," (((chunk3 s.toList.reverse).map
    (fun g => String.mk g.reverse)).reverse)

/-- Embeds the Python format `"{:,d}"` applied to an integer. -/
def groupInt (n : ℤ) : String :=
  (if n < 0 then "-" else "") ++ groupDigitsStr (natStr n.natAbs)

/-- Python `int()` applied to a finite value: truncation toward zero. -/
def pyInt (q : ℚ) : ℤ := Int.tdiv q.num (q.den : ℤ)

/-- The floor of a rational, computed on its reduced fraction. -/
def ratFloorZ (q : ℚ) : ℤ := Int.fdiv q.num (q.den : ℤ)

/-- The ceiling of a rational, computed on its reduced fraction. -/
def ratCeilZ (q : ℚ) : ℤ := -(Int.fdiv (-q.num) (q.den : ℤ))

/-- Round to the nearest integer, ties to even, as IEEE formatting does. -/
def roundHalfEven (x : ℚ) : ℤ :=
  let f := ratFloorZ x
  let r : ℚ := x - (f : ℚ)
  if r < 1 / 2 then f
  else if 1 / 2 < r then f + 1
  else if f % 2 = 0 then f else f + 1

/-- The rational `10 ^ k` for an integer exponent `k`. -/
def pow10z (k : ℤ) : ℚ :=
  if 0 ≤ k then ((10 ^ k.toNat : ℕ) : ℚ) else ((10 ^ (-k).toNat : ℕ) : ℚ)⁻¹

/-- Least `k` with `n ≤ 10 ^ k`, by bounded search (800 covers every double). -/
def clogTenAux : ℕ → ℕ → ℕ → ℕ
  | 0, _, acc => acc
  | fuel + 1, n, acc => if n ≤ 10 ^ acc then acc else clogTenAux fuel n (acc + 1)

/-- The decimal exponent `e` of a positive rational: `10 ^ e ≤ q < 10 ^ (e+1)`
(within the fuel bounds, which cover the double range). -/
def decExp (aq : ℚ) : ℤ :=
  if 1 ≤ aq then ((natDigitsList (ratFloorZ aq).toNat).length : ℤ) - 1
  else -(clogTenAux 800 (ratCeilZ aq⁻¹).toNat 0 : ℤ)

/-- Removes the insignificant trailing zeros of a fractional digit block, as
the Python `g` format does. -/
def stripTrailingZerosL (l : List Char) : List Char :=
  (l.reverse.dropWhile (fun c => c = '0')).reverse

/-- Scientific notation `d.ddde±XX` of a mantissa digit string and exponent,
with the trailing mantissa zeros stripped and at least two exponent digits,
as the Python `g` format renders it. -/
def sciForm (sign : String) (m : ℤ) (e : ℤ) : String :=
  let ds := natDigitsList m.toNat
  let first := String.mk (ds.take 1)
  let rest := stripTrailingZerosL (ds.drop 1)
  let mant := first ++ (if rest.isEmpty then "" else "." ++ String.mk rest)
  let expDigits := natStr e.natAbs
  let expPart := "e" ++ (if e < 0 then "-" else "+") ++
    (if expDigits.length < 2 then "0" ++ expDigits else expDigits)
  sign ++ mant ++ expPart

/-- Fixed-point notation of a `p`-digit mantissa `m` with decimal exponent
`e`, trailing fractional zeros stripped, integer part optionally
thousands-separated, as the Python `g` format renders it. -/
def fixedForm (sign : String) (m : ℤ) (e : ℤ) (grouped : Bool) : String :=
  let ds := natDigitsList m.toNat
  let intD : List Char :=
    if 0 ≤ e then ds.take (e.toNat + 1) ++ List.replicate (e.toNat + 1 - ds.length) '0'
    else ['0']
  let fracD : List Char :=
    if 0 ≤ e then ds.drop (e.toNat + 1) else List.replicate (-e - 1).toNat '0' ++ ds
  let fracS := stripTrailingZerosL fracD
  let intPart := if grouped then groupDigitsStr (String.mk intD) else String.mk intD
  sign ++ intPart ++ (if fracS.isEmpty then "" else "." ++ String.mk fracS)

/-- Embeds the Python format `"{:,.pg}"` (and, without grouping, `"{:.pg}"`)
for `p ≥ 1` significant digits on the exact rational value: round to `p`
significant digits, then use scientific notation when the decimal exponent
leaves `[-4, p)` and fixed-point notation otherwise. -/
def pyGeneralFormat (q : ℚ) (p : ℕ) (grouped : Bool) : String :=
  if q = 0 then "0"
  else
    let sign := if q < 0 then "-" else ""
    let aq := |q|
    let e0 := decExp aq
    let m0 := roundHalfEven (aq * pow10z ((p : ℤ) - 1 - e0))
    let m := if m0 = 10 ^ p then (10 : ℤ) ^ (p - 1) else m0
    let e := if m0 = 10 ^ p then e0 + 1 else e0
    if e < -4 ∨ (p : ℤ) ≤ e then sciForm sign m e else fixedForm sign m e grouped

/-- Embeds `LabelSet._float_format`: precision 0 is the thousands-grouped
integer format `"{:,d}"` applied to `int(n)`; precision `p > 0` is the
thousands-grouped `p`-significant-digit format `"{:,.pg}"`. -/
def float_format (n : ℚ) (nr_digits : ℕ) : String :=
  if nr_digits = 0 then groupInt (pyInt n)
  else pyGeneralFormat n nr_digits true

/-- Python `str()` of a float, idealized on the exact rational value:
integral values render with a trailing `.0`, other values with up to 17
significant digits. -/
def naiveStr (q : ℚ) : String :=
  if q.den = 1 then intStr q.num ++ ".0" else pyGeneralFormat q 17 false

/-- Embeds the loop of `_find_shortest_string_representation` over the
remaining candidate precisions: format the non-missing labels, return the
full formatting at the first precision where the formatted list has as many
distinct strings as entries, and fall back to the naive string conversion
when the candidates are exhausted. -/
def fssrLoop (numbers : List (Option ℚ)) : List ℕ → List String
  | [] => numbers.map (fun o => match o with | none => "" | some n => naiveStr n)
  | nr_digits :: rest =>
      let test_list := (numbers.filterMap id).map (fun n => float_format n nr_digits)
      if test_list.dedup.length = test_list.length then
        numbers.map (fun o =>
          match o with | none => "" | some n => float_format n nr_digits)
      else fssrLoop numbers rest

/-- Embeds `_find_shortest_string_representation`: try the precisions
`range(10)` in order. -/
def find_shortest_string_representation (numbers : List (Option ℚ)) : List String :=
  fssrLoop numbers (List.range 10)

/-- Modelled from the spec: the discretizer (`uniplot/discretizer.py` is not
part of the sources at hand).  Linear interpolation
`round((value - x_min) / (x_max - x_min) * steps)`; rounding is half-up, and
the degenerate domain `x_max = x_min` yields position 0 for every input
(rational division by zero is zero). -/
def discretize (x x_min x_max : ℚ) (steps : ℤ) : ℤ :=
  ratFloorZ ((x - x_min) / (x_max - x_min) * (steps : ℚ) + 1 / 2)

/-- The module constant `LEFT_MARGIN_FOR_HORIZONTAL_AXIS`. -/
def LEFT_MARGIN_FOR_HORIZONTAL_AXIS : ℤ := 1

/-- A run of spaces, Python `" " * n`. -/
def spacesStr (n : ℕ) : String := String.mk (List.replicate n ' ')

/-- The state of a constructed `LabelSet`: the labels (a missing label is
`none`), the domain, the available space, and the orientation flag.  The
lazily cached render result is not part of the state: rendering is pure, so
caching is observationally the identity. -/
structure LabelSet where
  labels : List (Option ℚ)
  x_min : ℚ
  x_max : ℚ
  available_space : ℤ
  vertical_direction : Bool

/-- Embeds the label-placement loop of `_render_and_measure_to_cache`,
walking the (label, rendered string) pairs with their index and carrying the
accumulated line and overlap flag.  Applying `discretize` to a missing label
raises a `TypeError` (`none`). -/
def renderLoop (x_min x_max : ℚ) (steps : ℤ) :
    List (Option ℚ × String) → ℕ → String → Bool → Option (String × Bool)
  | [], _, line, ov => some (line, ov)
  | (olabel, str_label) :: rest, i, line, ov =>
      match olabel with
      | none => none
      | some label =>
          let offset : ℤ := max 0
            (discretize label x_min x_max steps - ((str_label.length / 2 : ℕ) : ℤ) +
              LEFT_MARGIN_FOR_HORIZONTAL_AXIS)
          let buffer : ℤ := offset - (line.length : ℤ)
          let step : ℤ × Bool :=
            if i = 0 ∧ buffer < 0 then (0, true)
            else if 0 < i ∧ buffer < 1 then (1, true)
            else (buffer, ov)
          renderLoop x_min x_max steps rest (i + 1)
            (line ++ spacesStr step.1.toNat ++ str_label) step.2

/-- Embeds `_render_and_measure_to_cache`: compute the label strings, then
run the placement loop; the result is the single line and the overlap flag. -/
def LabelSet.render_and_measure (ls : LabelSet) : Option (String × Bool) :=
  renderLoop ls.x_min ls.x_max ls.available_space
    (ls.labels.zip (find_shortest_string_representation ls.labels)) 0 "" false

/-- Embeds `LabelSet.render`: the cached `_rendered_result`, a one-element
line list. -/
def LabelSet.render (ls : LabelSet) : Option (List String) :=
  (ls.render_and_measure).map (fun r => [r.1])

/-- Embeds `LabelSet.compute_if_render_does_overlap`. -/
def LabelSet.compute_if_render_does_overlap (ls : LabelSet) : Option Bool :=
  (ls.render_and_measure).map (fun r => r.2)

/-- The claim's intended start column of a label: its discretized position,
minus half the label width rounded down, plus the left margin of 1, floored
at 0. -/
def intended_start (x_min x_max : ℚ) (steps : ℤ) (v : ℚ) (s : String) : ℤ :=
  max 0 (discretize v x_min x_max steps - ((s.length / 2 : ℕ) : ℤ) + 1)

/-- The claim's description of the placement loop: each label is appended
after a buffer of spaces; the buffer is the intended start minus the current
line length, clamped from below at 0 for the first label and at 1 for every
later label, and the overlap flag is raised exactly when clamping occurred. -/
def claimPlaceAux (x_min x_max : ℚ) (steps : ℤ) :
    List (ℚ × String) → ℕ → String → Bool → String × Bool
  | [], _, line, ov => (line, ov)
  | (v, s) :: rest, i, line, ov =>
      let buffer : ℤ := intended_start x_min x_max steps v s - (line.length : ℤ)
      let minBuf : ℤ := if i = 0 then 0 else 1
      claimPlaceAux x_min x_max steps rest (i + 1)
        (line ++ spacesStr (max buffer minBuf).toNat ++ s)
        (ov || decide (buffer < minBuf))

/-- The claim's rendering of a label set whose labels are all present. -/
def claimPlace (ls : LabelSet) : String × Bool :=
  claimPlaceAux ls.x_min ls.x_max ls.available_space
    ((ls.labels.filterMap id).zip (find_shortest_string_representation ls.labels))
    0 "" false


/-- The result of `MultiSeries(ys=[[1, NaN, 3]])`. -/
def msC1ex : MultiSeries :=
  ⟨[⟨.int, [.num 1, .num 2, .num 3]⟩], [⟨.float, [.num 1, .nan, .num 3]⟩], true, false⟩

/-- The result of `MultiSeries(ys=[[NaN], [1]])`: the first row is entirely
not-a-number while the second holds a numeric value. -/
def msC1bad : MultiSeries :=
  ⟨[⟨.int, [.num 1]⟩, ⟨.int, [.num 1]⟩], [⟨.float, [.nan]⟩, ⟨.float, [.num 1]⟩], true, false⟩

/-- A one-point multi-series whose x axis is flagged as a timeseries. -/
def msTsEx : MultiSeries := ⟨[⟨.int, [.num 1]⟩], [⟨.float, [.num 1]⟩], false, true⟩

/-- A one-point multi-series whose x axis is numeric. -/
def msNumEx : MultiSeries := ⟨[⟨.int, [.num 1]⟩], [⟨.float, [.num 1]⟩], false, false⟩

/-- The result of `MultiSeries(ys=[1, 2])` (and of `ys=[1, 2, 3]` below):
flat numeric input with a generated index series. -/
def msFlatEx : MultiSeries :=
  ⟨[⟨.int, [.num 1, .num 2]⟩], [⟨.float, [.num 1, .num 2]⟩], false, false⟩

/-- The result of `MultiSeries(ys=[1, 2, 3])`. -/
def msFlat3Ex : MultiSeries :=
  ⟨[⟨.int, [.num 1, .num 2, .num 3]⟩], [⟨.float, [.num 1, .num 2, .num 3]⟩], false, false⟩

/-- The result of `MultiSeries(ys=[[1, 2], [3, 4]])`. -/
def msNestedEx : MultiSeries :=
  ⟨[⟨.int, [.num 1, .num 2]⟩, ⟨.int, [.num 1, .num 2]⟩],
   [⟨.float, [.num 1, .num 2]⟩, ⟨.float, [.num 3, .num 4]⟩], true, false⟩

/-- A two-label label set on the domain `[0, 4]` with 10 columns. -/
def lsPairEx : LabelSet := ⟨[some 1, some 2], 0, 4, 10, false⟩

/-- The per-entry specification of the safe log10: entries `<= 0` become
not-a-number, positive entries become their logarithm, and no entry ever
becomes negative infinity. -/
def logEntrySpec (lg : ℚ → ℚ) (v w : Fl) : Prop :=
  (∀ q, v = Fl.num q → q ≤ 0 → w = Fl.nan) ∧
  (∀ q, v = Fl.num q → 0 < q → w = Fl.num (lg q)) ∧
  w ≠ Fl.ninf

theorem flLe_refl (a : Fl) : flLe a a = true := by
  cases a <;> simp [flLe]

theorem flLe_total (a b : Fl) : flLe a b = true ∨ flLe b a = true := by
  cases a <;> cases b <;> simp_all [flLe] <;> exact le_total _ _

theorem flLe_trans (a b c : Fl) (hab : flLe a b = true) (hbc : flLe b c = true) :
    flLe a c = true := by
  cases a <;> cases b <;> cases c <;> simp_all [flLe] <;> exact le_trans hab hbc

theorem fmax_eq_or (a x : Fl) : fmax a x = a ∨ fmax a x = x := by
  unfold fmax; split <;> simp

theorem flLe_fmax_left (a x : Fl) : flLe a (fmax a x) = true := by
  unfold fmax; split
  · exact flLe_refl a
  · rcases flLe_total a x with h2 | h2
    · exact h2
    · simp_all

theorem flLe_fmax_right (a x : Fl) : flLe x (fmax a x) = true := by
  unfold fmax; split
  · assumption
  · exact flLe_refl x

theorem fmin_eq_or (a x : Fl) : fmin a x = a ∨ fmin a x = x := by
  unfold fmin; split <;> simp

theorem flLe_fmin_left (a x : Fl) : flLe (fmin a x) a = true := by
  unfold fmin; split
  · exact flLe_refl a
  · rcases flLe_total x a with h2 | h2
    · exact h2
    · simp_all

theorem flLe_fmin_right (a x : Fl) : flLe (fmin a x) x = true := by
  unfold fmin; split
  · assumption
  · exact flLe_refl x

theorem foldl_fmax_mem (t : List Fl) (a : Fl) :
    t.foldl fmax a = a ∨ t.foldl fmax a ∈ t := by
  induction t generalizing a with
  | nil => exact Or.inl rfl
  | cons b t ih =>
      simp only [List.foldl_cons]
      rcases ih (fmax a b) with h | h
      · rcases fmax_eq_or a b with h2 | h2
        · exact Or.inl (h.trans h2)
        · exact Or.inr (by rw [h, h2]; exact List.mem_cons_self b t)
      · exact Or.inr (List.mem_cons_of_mem b h)

theorem flLe_foldl_fmax_init (t : List Fl) (a : Fl) :
    flLe a (t.foldl fmax a) = true := by
  induction t generalizing a with
  | nil => exact flLe_refl a
  | cons b t ih =>
      exact flLe_trans a (fmax a b) _ (flLe_fmax_left a b) (ih (fmax a b))

theorem flLe_foldl_fmax_mem (t : List Fl) (a : Fl) :
    ∀ v ∈ t, flLe v (t.foldl fmax a) = true := by
  induction t generalizing a with
  | nil => intro v hv; simp at hv
  | cons b t ih =>
      intro v hv
      simp only [List.foldl_cons]
      rcases List.mem_cons.mp hv with rfl | hv
      · exact flLe_trans v (fmax a v) _ (flLe_fmax_right a v)
          (flLe_foldl_fmax_init t (fmax a v))
      · exact ih (fmax a b) v hv

theorem foldl_fmin_mem (t : List Fl) (a : Fl) :
    t.foldl fmin a = a ∨ t.foldl fmin a ∈ t := by
  induction t generalizing a with
  | nil => exact Or.inl rfl
  | cons b t ih =>
      simp only [List.foldl_cons]
      rcases ih (fmin a b) with h | h
      · rcases fmin_eq_or a b with h2 | h2
        · exact Or.inl (h.trans h2)
        · exact Or.inr (by rw [h, h2]; exact List.mem_cons_self b t)
      · exact Or.inr (List.mem_cons_of_mem b h)

theorem flLe_foldl_fmin_init (t : List Fl) (a : Fl) :
    flLe (t.foldl fmin a) a = true := by
  induction t generalizing a with
  | nil => exact flLe_refl a
  | cons b t ih =>
      exact flLe_trans _ (fmin a b) a (ih (fmin a b)) (flLe_fmin_left a b)

theorem flLe_foldl_fmin_mem (t : List Fl) (a : Fl) :
    ∀ v ∈ t, flLe (t.foldl fmin a) v = true := by
  induction t generalizing a with
  | nil => intro v hv; simp at hv
  | cons b t ih =>
      intro v hv
      simp only [List.foldl_cons]
      rcases List.mem_cons.mp hv with rfl | hv
      · exact flLe_trans _ (fmin a v) v (flLe_foldl_fmin_init t (fmin a v))
          (flLe_fmin_right a v)
      · exact ih (fmin a b) v hv

theorem listMax_spec (l : List Fl) (h : l ≠ []) :
    ∃ m, listMax l = some m ∧ m ∈ l ∧ ∀ v ∈ l, flLe v m = true := by
  match l with
  | [] => exact absurd rfl h
  | a :: t =>
      refine ⟨t.foldl fmax a, rfl, ?_, ?_⟩
      · rcases foldl_fmax_mem t a with h2 | h2
        · rw [h2]; exact List.mem_cons_self a t
        · exact List.mem_cons_of_mem a h2
      · intro v hv
        rcases List.mem_cons.mp hv with rfl | hv
        · exact flLe_foldl_fmax_init t v
        · exact flLe_foldl_fmax_mem t a v hv

theorem listMin_spec (l : List Fl) (h : l ≠ []) :
    ∃ m, listMin l = some m ∧ m ∈ l ∧ ∀ v ∈ l, flLe m v = true := by
  match l with
  | [] => exact absurd rfl h
  | a :: t =>
      refine ⟨t.foldl fmin a, rfl, ?_, ?_⟩
      · rcases foldl_fmin_mem t a with h2 | h2
        · rw [h2]; exact List.mem_cons_self a t
        · exact List.mem_cons_of_mem a h2
      · intro v hv
        rcases List.mem_cons.mp hv with rfl | hv
        · exact flLe_foldl_fmin_init t v
        · exact flLe_foldl_fmin_mem t a v hv

theorem safe_max_spec (a : NArray) (h : ∃ v ∈ a.data, v.isnan = false) :
    ∃ m, safe_max a = some m ∧ m ∈ a.data.filter (fun v => v.isnan = false) ∧
      ∀ v ∈ a.data.filter (fun v => v.isnan = false), flLe v m = true := by
  apply listMax_spec
  obtain ⟨v, hv, hnn⟩ := h
  intro hcontra
  have hvmem : v ∈ a.data.filter (fun v => v.isnan = false) :=
    List.mem_filter.mpr ⟨hv, by simp [hnn]⟩
  rw [hcontra] at hvmem
  simp at hvmem

theorem safe_min_spec (a : NArray) (h : ∃ v ∈ a.data, v.isnan = false) :
    ∃ m, safe_min a = some m ∧ m ∈ a.data.filter (fun v => v.isnan = false) ∧
      ∀ v ∈ a.data.filter (fun v => v.isnan = false), flLe m v = true := by
  apply listMin_spec
  obtain ⟨v, hv, hnn⟩ := h
  intro hcontra
  have hvmem : v ∈ a.data.filter (fun v => v.isnan = false) :=
    List.mem_filter.mpr ⟨hv, by simp [hnn]⟩
  rw [hcontra] at hvmem
  simp at hvmem

theorem mapOpt_some {α β : Type} (f : α → Option β) (l : List α)
    (h : ∀ a ∈ l, ∃ b, f a = some b) :
    ∃ bs, mapOpt f l = some bs ∧ List.Forall₂ (fun a b => f a = some b) l bs := by
  induction l with
  | nil => exact ⟨[], rfl, List.Forall₂.nil⟩
  | cons a t ih =>
      obtain ⟨b, hb⟩ := h a (List.mem_cons_self a t)
      obtain ⟨bs, hbs, hf⟩ := ih (fun x hx => h x (List.mem_cons_of_mem a hx))
      exact ⟨b :: bs, by simp [mapOpt, hb, hbs], List.Forall₂.cons hb hf⟩

theorem mem_right_of_forall₂ {α β : Type} {R : α → β → Prop} {l : List α}
    {bs : List β} (h : List.Forall₂ R l bs) : ∀ b ∈ bs, ∃ a ∈ l, R a b := by
  induction h with
  | nil => intro b hb; simp at hb
  | cons hR hrest ih =>
      intro b hb
      rcases List.mem_cons.mp hb with rfl | hb
      · exact ⟨_, List.mem_cons_self _ _, hR⟩
      · obtain ⟨a, ha, hab⟩ := ih b hb
        exact ⟨a, List.mem_cons_of_mem _ ha, hab⟩

theorem mem_left_of_forall₂ {α β : Type} {R : α → β → Prop} {l : List α}
    {bs : List β} (h : List.Forall₂ R l bs) : ∀ a ∈ l, ∃ b ∈ bs, R a b := by
  induction h with
  | nil => intro a ha; simp at ha
  | cons hR hrest ih =>
      intro a ha
      rcases List.mem_cons.mp ha with rfl | ha
      · exact ⟨_, List.mem_cons_self _ _, hR⟩
      · obtain ⟨b, hb, hab⟩ := ih a ha
        exact ⟨b, List.mem_cons_of_mem _ hb, hab⟩

theorem mem_nonNanValues {arrs : List NArray} {v : Fl} :
    v ∈ nonNanValues arrs ↔ ∃ a ∈ arrs, v ∈ a.data ∧ v.isnan = false := by
  simp only [nonNanValues, List.mem_filter, List.mem_flatten, List.mem_map,
    decide_eq_true_eq]
  constructor
  · rintro ⟨⟨l, ⟨a, ha, rfl⟩, hvl⟩, hnn⟩
    exact ⟨a, ha, hvl, hnn⟩
  · rintro ⟨a, ha, hva, hnn⟩
    exact ⟨⟨a.data, ⟨a, ha, rfl⟩, hva⟩, hnn⟩

theorem aggMax_spec (arrs : List NArray) (hne : arrs ≠ [])
    (hrows : ∀ a ∈ arrs, ∃ v ∈ a.data, v.isnan = false) :
    ∃ m, (mapOpt safe_max arrs).bind listMax = some m ∧ m ∈ nonNanValues arrs ∧
      ∀ v ∈ nonNanValues arrs, flLe v m = true := by
  have hsome : ∀ a ∈ arrs, ∃ b, safe_max a = some b := by
    intro a ha
    obtain ⟨m, hm, _, _⟩ := safe_max_spec a (hrows a ha)
    exact ⟨m, hm⟩
  obtain ⟨ms, hms, hf⟩ := mapOpt_some safe_max arrs hsome
  have hmsne : ms ≠ [] := by
    intro hc
    subst hc
    have hlen := hf.length_eq
    simp at hlen
    exact hne hlen
  obtain ⟨M, hM, hMmem, hMdom⟩ := listMax_spec ms hmsne
  refine ⟨M, by rw [hms]; exact hM, ?_, ?_⟩
  · obtain ⟨a, ha, hfa⟩ := mem_right_of_forall₂ hf M hMmem
    obtain ⟨m2, hm2, hm2mem, _⟩ := safe_max_spec a (hrows a ha)
    rw [hfa] at hm2
    obtain rfl : M = m2 := by injection hm2
    have := List.mem_filter.mp hm2mem
    exact mem_nonNanValues.mpr ⟨a, ha, this.1, by simpa using this.2⟩
  · intro v hv
    obtain ⟨a, ha, hva, hnn⟩ := mem_nonNanValues.mp hv
    obtain ⟨b, hbms, hab⟩ := mem_left_of_forall₂ hf a ha
    obtain ⟨m2, hm2, _, hm2dom⟩ := safe_max_spec a (hrows a ha)
    rw [hab] at hm2
    obtain rfl : b = m2 := by injection hm2
    have hv2 : flLe v b = true :=
      hm2dom v (List.mem_filter.mpr ⟨hva, by simp [hnn]⟩)
    exact flLe_trans v b M hv2 (hMdom b hbms)

theorem aggMin_spec (arrs : List NArray) (hne : arrs ≠ [])
    (hrows : ∀ a ∈ arrs, ∃ v ∈ a.data, v.isnan = false) :
    ∃ m, (mapOpt safe_min arrs).bind listMin = some m ∧ m ∈ nonNanValues arrs ∧
      ∀ v ∈ nonNanValues arrs, flLe m v = true := by
  have hsome : ∀ a ∈ arrs, ∃ b, safe_min a = some b := by
    intro a ha
    obtain ⟨m, hm, _, _⟩ := safe_min_spec a (hrows a ha)
    exact ⟨m, hm⟩
  obtain ⟨ms, hms, hf⟩ := mapOpt_some safe_min arrs hsome
  have hmsne : ms ≠ [] := by
    intro hc
    subst hc
    have hlen := hf.length_eq
    simp at hlen
    exact hne hlen
  obtain ⟨M, hM, hMmem, hMdom⟩ := listMin_spec ms hmsne
  refine ⟨M, by rw [hms]; exact hM, ?_, ?_⟩
  · obtain ⟨a, ha, hfa⟩ := mem_right_of_forall₂ hf M hMmem
    obtain ⟨m2, hm2, hm2mem, _⟩ := safe_min_spec a (hrows a ha)
    rw [hfa] at hm2
    obtain rfl : M = m2 := by injection hm2
    have := List.mem_filter.mp hm2mem
    exact mem_nonNanValues.mpr ⟨a, ha, this.1, by simpa using this.2⟩
  · intro v hv
    obtain ⟨a, ha, hva, hnn⟩ := mem_nonNanValues.mp hv
    obtain ⟨b, hbms, hab⟩ := mem_left_of_forall₂ hf a ha
    obtain ⟨m2, hm2, _, hm2dom⟩ := safe_min_spec a (hrows a ha)
    rw [hab] at hm2
    obtain rfl : b = m2 := by injection hm2
    have hv2 : flLe b v = true :=
      hm2dom v (List.mem_filter.mpr ⟨hva, by simp [hnn]⟩)
    exact flLe_trans M b v (hMdom b hbms) hv2

theorem logEntry_holds (lg : ℚ → ℚ) (v : Fl) :
    logEntrySpec lg v (np_log10 lg (maskNonpos v)) := by
  refine ⟨?_, ?_, ?_⟩
  · rintro q rfl hq
    simp [maskNonpos, flLeZero, hq, np_log10]
  · rintro q rfl hq
    have hnle : ¬(q ≤ 0) := not_le.mpr hq
    simp only [maskNonpos, flLeZero, decide_eq_true_eq, if_neg hnle, np_log10]
    rw [if_neg (not_lt.mpr hq.le), if_neg hq.ne']
  · cases v with
    | nan => simp [maskNonpos, flLeZero, np_log10]
    | ninf => simp [maskNonpos, flLeZero, np_log10]
    | pinf => simp [maskNonpos, flLeZero, np_log10]
    | num q =>
        by_cases hq : q ≤ 0
        · simp [maskNonpos, flLeZero, hq, np_log10]
        · simp only [maskNonpos, flLeZero, decide_eq_true_eq, if_neg hq, np_log10]
          rw [if_neg (not_lt.mpr (not_le.mp hq).le), if_neg (not_le.mp hq).ne']
          simp

/-- C1 (amended): for every `MultiSeries` in which every stored row of the
respective axis holds at least one value that is not not-a-number,
`x_min`/`x_max`/`y_min`/`y_max` return the global minimum/maximum over all
values across all stored rows, ignoring not-a-number entries.  (As stated,
the claim fails when an individual row consists entirely of not-a-number
entries: `_safe_max` then raises, see the counterexample.) -/
theorem global_minmax_ignoring_nan (ms : MultiSeries)
    (hx : ms.xs ≠ []) (hy : ms.ys ≠ [])
    (hxr : ∀ a ∈ ms.xs, ∃ v ∈ a.data, v.isnan = false)
    (hyr : ∀ a ∈ ms.ys, ∃ v ∈ a.data, v.isnan = false) :
    (∃ m, ms.y_max = some m ∧ m ∈ nonNanValues ms.ys ∧
       ∀ v ∈ nonNanValues ms.ys, flLe v m = true) ∧
    (∃ m, ms.y_min = some m ∧ m ∈ nonNanValues ms.ys ∧
       ∀ v ∈ nonNanValues ms.ys, flLe m v = true) ∧
    (∃ m, ms.x_max = some m ∧ m ∈ nonNanValues ms.xs ∧
       ∀ v ∈ nonNanValues ms.xs, flLe v m = true) ∧
    (∃ m, ms.x_min = some m ∧ m ∈ nonNanValues ms.xs ∧
       ∀ v ∈ nonNanValues ms.xs, flLe m v = true) :=
  ⟨aggMax_spec ms.ys hy hyr, aggMin_spec ms.ys hy hyr,
   aggMax_spec ms.xs hx hxr, aggMin_spec ms.xs hx hxr⟩

/-- Witness for C1 on `MultiSeries(ys=[[1, NaN, 3]])`, where in particular
`y_max() == 3`. -/
theorem global_minmax_ignoring_nan_witness :
    ((∃ m, msC1ex.y_max = some m ∧ m ∈ nonNanValues msC1ex.ys ∧
       ∀ v ∈ nonNanValues msC1ex.ys, flLe v m = true) ∧
     (∃ m, msC1ex.y_min = some m ∧ m ∈ nonNanValues msC1ex.ys ∧
       ∀ v ∈ nonNanValues msC1ex.ys, flLe m v = true) ∧
     (∃ m, msC1ex.x_max = some m ∧ m ∈ nonNanValues msC1ex.xs ∧
       ∀ v ∈ nonNanValues msC1ex.xs, flLe v m = true) ∧
     (∃ m, msC1ex.x_min = some m ∧ m ∈ nonNanValues msC1ex.xs ∧
       ∀ v ∈ nonNanValues msC1ex.xs, flLe m v = true)) ∧
    msC1ex.y_max = some (Fl.num 3) :=
  ⟨global_minmax_ignoring_nan msC1ex (by decide) (by decide) (by decide) (by decide),
   by decide⟩

/-- C1, counterexample: on `MultiSeries(ys=[[NaN], [1]])` — one row entirely
not-a-number, another holding the numeric value 1 — `y_max()` raises
(`none`) instead of returning the global maximum 1 that the claim demands. -/
theorem y_max_fails_on_allnan_row :
    MultiSeries.init (Raw.rseq [Raw.rseq [Raw.rfloat .nan], Raw.rseq [Raw.rint 1]])
        none = some msC1bad ∧
    msC1bad.y_max = none ∧
    Fl.num 1 ∈ nonNanValues msC1bad.ys ∧
    (none : Option Fl) ≠ some (Fl.num 1) := by
  refine ⟨by with_unfolding_all decide, by decide, by decide, by decide⟩

/-- C4: `set_x_axis_to_log10` raises `ValueError` and leaves the object
unmodified exactly on a timeseries-flagged x axis, and does not raise
otherwise. -/
theorem set_x_log10_rejects_timeseries (lg : ℚ → ℚ) (ms : MultiSeries) :
    (ms.x_is_timeseries = true →
      MultiSeries.set_x_axis_to_log10 lg ms = (true, ms)) ∧
    (ms.x_is_timeseries = false →
      (MultiSeries.set_x_axis_to_log10 lg ms).1 = false) := by
  constructor
  · intro h
    simp [MultiSeries.set_x_axis_to_log10, h]
  · intro h
    simp [MultiSeries.set_x_axis_to_log10, h]

/-- Witness for C4 on a timeseries-flagged and a numeric multi-series. -/
theorem set_x_log10_rejects_timeseries_witness :
    MultiSeries.set_x_axis_to_log10 (fun q => q) msTsEx = (true, msTsEx) ∧
    (MultiSeries.set_x_axis_to_log10 (fun q => q) msNumEx).1 = false :=
  ⟨(set_x_log10_rejects_timeseries (fun q => q) msTsEx).1 rfl,
   (set_x_log10_rejects_timeseries (fun q => q) msNumEx).2 rfl⟩

/-- C5: `set_y_axis_to_log10` replaces every stored y series elementwise
(same rows, same lengths, float dtype): entries `<= 0` become not-a-number,
positive entries become their base-10 logarithm (for any choice `lg` of the
finite logarithm), and no entry ever becomes negative infinity.  (Complex
results are excluded by the value model itself.) -/
theorem set_y_log10_elementwise (lg : ℚ → ℚ) (ms : MultiSeries) :
    List.Forall₂ (fun a b => b.dtype = DType.float ∧
        List.Forall₂ (logEntrySpec lg) a.data b.data)
      ms.ys (MultiSeries.set_y_axis_to_log10 lg ms).ys := by
  unfold MultiSeries.set_y_axis_to_log10
  simp only [List.forall₂_map_right_iff]
  rw [List.forall₂_same]
  intro a _
  refine ⟨rfl, ?_⟩
  unfold safe_log10
  simp only [List.forall₂_map_right_iff]
  rw [List.forall₂_same]
  intro v _
  exact logEntry_holds lg v

theorem init_flags (ys : Raw) (xs : Option Raw) (ms : MultiSeries)
    (h : MultiSeries.init ys xs = some ms) :
    ms.is_multi_dimensional = isMultiDimensional ys ∧
    ms.x_is_timeseries = is_timeseries_ish xs := by
  unfold MultiSeries.init at h
  dsimp only at h
  split at h
  · exact absurd h (by simp)
  · split at h
    · exact absurd h (by simp)
    · injection h with h
      subst h
      exact ⟨rfl, rfl⟩

/-- C9: construction sets `is_multi_dimensional` to true exactly when the y
input is a sequence all of whose elements are themselves iterable, and to
false otherwise (in particular for mixed iterable/non-iterable elements). -/
theorem multi_dimensional_iff_all_iterable (ys : Raw) (xs : Option Raw)
    (ms : MultiSeries) (h : MultiSeries.init ys xs = some ms) :
    ms.is_multi_dimensional = true ↔
      ∃ l, ys = Raw.rseq l ∧ ∀ e ∈ l, isIterable e = true := by
  rw [(init_flags ys xs ms h).1]
  cases ys with
  | rseq l =>
      constructor
      · intro hall
        refine ⟨l, rfl, ?_⟩
        exact List.all_eq_true.mp (by simpa [isMultiDimensional] using hall)
      · rintro ⟨l2, hl2, hall⟩
        obtain rfl : l = l2 := by injection hl2
        simp only [isMultiDimensional, List.all_eq_true]
        exact hall
  | rint n => simp [isMultiDimensional]
  | rfloat v => simp [isMultiDimensional]
  | rdate d => simp [isMultiDimensional]

/-- Witness for C9: `MultiSeries(ys=[1,2,3])` is not multi-dimensional and
`MultiSeries(ys=[[1,2],[3,4]])` is. -/
theorem multi_dimensional_iff_all_iterable_witness :
    (msFlat3Ex.is_multi_dimensional = true ↔
      ∃ l, Raw.rseq [Raw.rint 1, Raw.rint 2, Raw.rint 3] = Raw.rseq l ∧
        ∀ e ∈ l, isIterable e = true) ∧
    (msNestedEx.is_multi_dimensional = true ↔
      ∃ l, Raw.rseq [Raw.rseq [Raw.rint 1, Raw.rint 2],
          Raw.rseq [Raw.rint 3, Raw.rint 4]] = Raw.rseq l ∧
        ∀ e ∈ l, isIterable e = true) ∧
    msFlat3Ex.is_multi_dimensional = false ∧
    msNestedEx.is_multi_dimensional = true :=
  ⟨multi_dimensional_iff_all_iterable
      (Raw.rseq [Raw.rint 1, Raw.rint 2, Raw.rint 3]) none msFlat3Ex
      (by with_unfolding_all decide),
   multi_dimensional_iff_all_iterable
      (Raw.rseq [Raw.rseq [Raw.rint 1, Raw.rint 2],
        Raw.rseq [Raw.rint 3, Raw.rint 4]]) none msNestedEx
      (by with_unfolding_all decide),
   by decide, by decide⟩

theorem cast_dtype {l : List Raw} {a : NArray}
    (h : cast_as_numpy_floats l = some a) : a.dtype = DType.float := by
  unfold cast_as_numpy_floats at h
  split at h
  · exact absurd h (by simp)
  · injection h with h
    subst h
    rfl
  · injection h with h
    subst h
    rfl

theorem castRaw_dtype {r : Raw} {a : NArray} (h : castRaw r = some a) :
    a.dtype = DType.float := by
  cases r with
  | rseq l => exact cast_dtype h
  | rint n => exact absurd h (by simp [castRaw])
  | rfloat v => exact absurd h (by simp [castRaw])
  | rdate d => exact absurd h (by simp [castRaw])

theorem convert_dtype {r : Raw} {a : NArray}
    (h : convert_timeseries_to_numpy r = some a) : a.dtype = DType.int := by
  cases r with
  | rseq l =>
      unfold convert_timeseries_to_numpy at h
      dsimp only at h
      by_cases hall : l.all isDate = true
      · rw [if_pos hall] at h
        injection h with h
        subst h
        rfl
      · rw [if_neg hall] at h
        exact absurd h (by simp)
  | rint n => exact absurd h (by simp [convert_timeseries_to_numpy])
  | rfloat v => exact absurd h (by simp [convert_timeseries_to_numpy])
  | rdate d => exact absurd h (by simp [convert_timeseries_to_numpy])

theorem mapOpt_mem {α β : Type} {f : α → Option β} {l : List α} {bs : List β}
    (h : mapOpt f l = some bs) : ∀ b ∈ bs, ∃ a ∈ l, f a = some b := by
  induction l generalizing bs with
  | nil =>
      obtain rfl : bs = [] := by
        unfold mapOpt at h
        injection h with h
        exact h.symm
      intro b hb
      simp at hb
  | cons a t ih =>
      unfold mapOpt at h
      revert h
      cases hfa : f a with
      | none => intro h; exact absurd h (by simp)
      | some b0 =>
          intro h
          obtain ⟨ts, hts, rfl⟩ := Option.map_eq_some'.mp h
          intro b hb
          rcases List.mem_cons.mp hb with rfl | hb
          · exact ⟨a, List.mem_cons_self a t, hfa⟩
          · obtain ⟨a2, ha2, hfa2⟩ := ih hts b hb
            exact ⟨a2, List.mem_cons_of_mem a ha2, hfa2⟩

theorem set_y_dtypes (lg : ℚ → ℚ) (ms : MultiSeries) :
    ∀ a ∈ (MultiSeries.set_y_axis_to_log10 lg ms).ys, a.dtype = DType.float := by
  intro a ha
  unfold MultiSeries.set_y_axis_to_log10 at ha
  simp only [List.mem_map] at ha
  obtain ⟨b, _, rfl⟩ := ha
  rfl

theorem set_x_dtypes (lg : ℚ → ℚ) (ms : MultiSeries)
    (h : ms.x_is_timeseries = false) :
    ∀ a ∈ (MultiSeries.set_x_axis_to_log10 lg ms).2.xs, a.dtype = DType.float := by
  intro a ha
  unfold MultiSeries.set_x_axis_to_log10 at ha
  rw [h] at ha
  simp only [Bool.false_eq_true, if_false, List.mem_map] at ha
  obtain ⟨b, _, rfl⟩ := ha
  rfl

theorem init_dtypes (ys : Raw) (xs : Option Raw) (ms : MultiSeries)
    (h : MultiSeries.init ys xs = some ms) :
    (∀ a ∈ ms.ys, a.dtype = DType.float) ∧
    (xs = none → ∀ a ∈ ms.xs, a.dtype = DType.int) ∧
    (xs ≠ none → ms.x_is_timeseries = true → ∀ a ∈ ms.xs, a.dtype = DType.int) ∧
    (xs ≠ none → ms.x_is_timeseries = false → ∀ a ∈ ms.xs, a.dtype = DType.float) := by
  unfold MultiSeries.init at h
  dsimp only at h
  split at h
  · exact absurd h (by simp)
  rename_i ysArrs heqy
  split at h
  · exact absurd h (by simp)
  rename_i xsArrs heqx
  injection h with h
  subst h
  refine ⟨?_, ?_, ?_, ?_⟩
  · -- every y row has float dtype
    intro a ha
    by_cases hmd : isMultiDimensional ys = true
    · rw [if_pos hmd] at heqy
      cases ys with
      | rseq rows =>
          exact castRaw_dtype (mapOpt_mem heqy a ha).choose_spec.2
      | rint n => exact absurd heqy (by simp)
      | rfloat v => exact absurd heqy (by simp)
      | rdate d => exact absurd heqy (by simp)
    · rw [if_neg hmd] at heqy
      obtain ⟨a0, ha0, rfl⟩ := Option.map_eq_some'.mp heqy
      rw [List.mem_singleton.mp ha]
      exact castRaw_dtype ha0
  · -- generated index series have int dtype
    rintro rfl a ha
    simp only at heqx
    injection heqx with heqx
    rw [← heqx] at ha
    simp only [List.mem_map] at ha
    obtain ⟨b, _, rfl⟩ := ha
    rfl
  · -- timeseries x input gives int arrays
    intro hxs hts a ha
    obtain ⟨x, rfl⟩ := Option.ne_none_iff_exists'.mp hxs
    simp only at hts heqx
    by_cases hmd : isMultiDimensional ys = true
    · rw [if_pos hmd] at heqx
      cases x with
      | rseq rows =>
          dsimp only at heqx
          rw [if_pos hts] at heqx
          exact convert_dtype (mapOpt_mem heqx a ha).choose_spec.2
      | rint n => exact absurd heqx (by simp)
      | rfloat v => exact absurd heqx (by simp)
      | rdate d => exact absurd heqx (by simp)
    · rw [if_neg hmd, if_pos hts] at heqx
      obtain ⟨a0, ha0, rfl⟩ := Option.map_eq_some'.mp heqx
      rw [List.mem_singleton.mp ha]
      exact convert_dtype ha0
  · -- numeric x input gives float arrays
    intro hxs hts a ha
    obtain ⟨x, rfl⟩ := Option.ne_none_iff_exists'.mp hxs
    simp only at hts heqx
    by_cases hmd : isMultiDimensional ys = true
    · rw [if_pos hmd] at heqx
      cases x with
      | rseq rows =>
          dsimp only at heqx
          rw [if_neg (by simp [hts])] at heqx
          exact castRaw_dtype (mapOpt_mem heqx a ha).choose_spec.2
      | rint n => exact absurd heqx (by simp)
      | rfloat v => exact absurd heqx (by simp)
      | rdate d => exact absurd heqx (by simp)
    · rw [if_neg hmd, if_neg (by simp [hts])] at heqx
      obtain ⟨a0, ha0, rfl⟩ := Option.map_eq_some'.mp heqx
      rw [List.mem_singleton.mp ha]
      exact castRaw_dtype ha0

/-- C7 (amended): after construction, every stored y series is a
floating-point array; x series cast from plain numeric input are
floating-point; but the generated 1-based index series (when x is omitted)
and timeseries-converted x series are integer arrays, not floats.  The
log-transform operations replace the transformed series by float arrays. -/
theorem stored_dtypes_after_init (ys : Raw) (xs : Option Raw) (ms : MultiSeries)
    (h : MultiSeries.init ys xs = some ms) :
    (∀ a ∈ ms.ys, a.dtype = DType.float) ∧
    (xs = none → ∀ a ∈ ms.xs, a.dtype = DType.int) ∧
    (xs ≠ none → ms.x_is_timeseries = true → ∀ a ∈ ms.xs, a.dtype = DType.int) ∧
    (xs ≠ none → ms.x_is_timeseries = false → ∀ a ∈ ms.xs, a.dtype = DType.float) ∧
    (∀ lg, ∀ a ∈ (MultiSeries.set_y_axis_to_log10 lg ms).ys, a.dtype = DType.float) ∧
    (ms.x_is_timeseries = false →
      ∀ lg, ∀ a ∈ (MultiSeries.set_x_axis_to_log10 lg ms).2.xs,
        a.dtype = DType.float) := by
  obtain ⟨h1, h2, h3, h4⟩ := init_dtypes ys xs ms h
  exact ⟨h1, h2, h3, h4, fun lg => set_y_dtypes lg ms,
    fun hts lg => set_x_dtypes lg ms hts⟩

/-- Witness for C7 on `MultiSeries(ys=[1, 2])`. -/
theorem stored_dtypes_after_init_witness :
    (∀ a ∈ msFlatEx.ys, a.dtype = DType.float) ∧
    ((none : Option Raw) = none → ∀ a ∈ msFlatEx.xs, a.dtype = DType.int) ∧
    ((none : Option Raw) ≠ none → msFlatEx.x_is_timeseries = true →
      ∀ a ∈ msFlatEx.xs, a.dtype = DType.int) ∧
    ((none : Option Raw) ≠ none → msFlatEx.x_is_timeseries = false →
      ∀ a ∈ msFlatEx.xs, a.dtype = DType.float) ∧
    (∀ lg, ∀ a ∈ (MultiSeries.set_y_axis_to_log10 lg msFlatEx).ys,
      a.dtype = DType.float) ∧
    (msFlatEx.x_is_timeseries = false →
      ∀ lg, ∀ a ∈ (MultiSeries.set_x_axis_to_log10 lg msFlatEx).2.xs,
        a.dtype = DType.float) :=
  stored_dtypes_after_init (Raw.rseq [Raw.rint 1, Raw.rint 2]) none msFlatEx
    (by with_unfolding_all decide)

/-- C7, counterexample: `MultiSeries(ys=[1, 2])` stores its generated index
series with integer dtype, not as a sequence of plain floating-point
numbers. -/
theorem index_series_has_int_dtype :
    MultiSeries.init (Raw.rseq [Raw.rint 1, Raw.rint 2]) none = some msFlatEx ∧
    msFlatEx.xs.map NArray.dtype = [DType.int] ∧
    DType.int ≠ DType.float :=
  ⟨by with_unfolding_all decide, by decide, by decide⟩

/-- C6 (amended): a date/datetime-like x input is converted elementwise to
the integer count (int64, not floating point) of whole seconds since the
Unix epoch, obtained by floor division (not truncating division) of the
nanosecond-precision epoch integer by `10 ^ 9`; consequently converting the
date sequence `[2024-01-01, 2024-01-02]` (nanosecond epoch values
`1704067200000000000` and `1704153600000000000`) yields two values exactly
86400 apart. -/
theorem timeseries_epoch_seconds :
    (∀ ns : List ℤ, convert_timeseries_to_numpy (Raw.rseq (ns.map Raw.rdate)) =
      some ⟨.int, ns.map (fun n => Fl.num ((Int.fdiv n (10 ^ 9) : ℤ) : ℚ))⟩) ∧
    (∀ s : ℤ, ∃ q1 q2 : ℚ,
      convert_timeseries_to_numpy
          (Raw.rseq [Raw.rdate (s * 10 ^ 9), Raw.rdate ((s + 86400) * 10 ^ 9)]) =
        some ⟨.int, [Fl.num q1, Fl.num q2]⟩ ∧ q2 - q1 = 86400) ∧
    (∃ q1 q2 : ℚ,
      convert_timeseries_to_numpy
          (Raw.rseq [Raw.rdate 1704067200000000000, Raw.rdate 1704153600000000000]) =
        some ⟨.int, [Fl.num q1, Fl.num q2]⟩ ∧ q2 - q1 = 86400) := by
  have hgen : ∀ ns : List ℤ,
      convert_timeseries_to_numpy (Raw.rseq (ns.map Raw.rdate)) =
        some ⟨.int, ns.map (fun n => Fl.num ((Int.fdiv n (10 ^ 9) : ℤ) : ℚ))⟩ := by
    intro ns
    unfold convert_timeseries_to_numpy
    dsimp only
    rw [if_pos (by simp [List.all_map, isDate, Function.comp])]
    rw [List.map_map]
    rfl
  have hpair : ∀ s : ℤ, ∃ q1 q2 : ℚ,
      convert_timeseries_to_numpy
          (Raw.rseq [Raw.rdate (s * 10 ^ 9), Raw.rdate ((s + 86400) * 10 ^ 9)]) =
        some ⟨.int, [Fl.num q1, Fl.num q2]⟩ ∧ q2 - q1 = 86400 := by
    intro s
    refine ⟨(s : ℚ), ((s + 86400 : ℤ) : ℚ), ?_, ?_⟩
    · have h2 := hgen [s * 10 ^ 9, (s + 86400) * 10 ^ 9]
      simp only [List.map_cons, List.map_nil] at h2
      rw [h2]
      have e1 : Int.fdiv (s * 10 ^ 9) (10 ^ 9) = s :=
        Int.mul_fdiv_cancel s (by norm_num)
      have e2 : Int.fdiv ((s + 86400) * 10 ^ 9) (10 ^ 9) = s + 86400 :=
        Int.mul_fdiv_cancel (s + 86400) (by norm_num)
      rw [e1, e2]
    · push_cast
      ring
  refine ⟨hgen, hpair, ?_⟩
  obtain ⟨q1, q2, hconv, hdiff⟩ := hpair 1704067200
  refine ⟨q1, q2, ?_, hdiff⟩
  have l1 : (1704067200 : ℤ) * 10 ^ 9 = 1704067200000000000 := by norm_num
  have l2 : ((1704067200 : ℤ) + 86400) * 10 ^ 9 = 1704153600000000000 := by norm_num
  rw [l1, l2] at hconv
  exact hconv

/-- C6, counterexample: the code floor-divides, it does not truncate toward
zero.  For the pre-epoch instant `1969-12-31 23:59:58.5` (nanosecond value
`-1500000000`) the stored value is `-2`, while truncating division would
give `-1`; and the array dtype is integer rather than floating point. -/
theorem timeseries_floor_not_truncating :
    convert_timeseries_to_numpy (Raw.rseq [Raw.rdate (-1500000000)]) =
      some ⟨.int, [Fl.num ((-2 : ℤ) : ℚ)]⟩ ∧
    Int.tdiv (-1500000000) (10 ^ 9) = -1 ∧
    ((-2 : ℤ) : ℚ) ≠ ((-1 : ℤ) : ℚ) :=
  ⟨by with_unfolding_all decide, by decide, by with_unfolding_all decide⟩

/-- C10: the `vertical_direction` flag has no effect on `render()` or on
`compute_if_render_does_overlap()`: two label sets that differ only in the
orientation flag produce identical output. -/
theorem vertical_direction_has_no_effect (labels : List (Option ℚ))
    (x_min x_max : ℚ) (space : ℤ) :
    LabelSet.render ⟨labels, x_min, x_max, space, true⟩ =
      LabelSet.render ⟨labels, x_min, x_max, space, false⟩ ∧
    LabelSet.compute_if_render_does_overlap ⟨labels, x_min, x_max, space, true⟩ =
      LabelSet.compute_if_render_does_overlap ⟨labels, x_min, x_max, space, false⟩ :=
  ⟨rfl, rfl⟩

/-- C8 (amended): rendering an empty label list produces a single empty line
and no overlap.  (A label list whose entries are all missing instead raises,
because the placement loop applies `discretize` to the missing value: see
the counterexample.) -/
theorem empty_labels_render_empty_line (x_min x_max : ℚ) (space : ℤ) (vd : Bool) :
    LabelSet.render ⟨[], x_min, x_max, space, vd⟩ = some [""] ∧
    LabelSet.compute_if_render_does_overlap ⟨[], x_min, x_max, space, vd⟩ =
      some false :=
  ⟨rfl, rfl⟩

/-- C8, counterexample: rendering the all-missing label list `[None]` raises
(`none`) instead of producing the empty line that the claim demands. -/
theorem all_missing_labels_raise :
    LabelSet.render ⟨[none], 0, 1, 10, false⟩ = none ∧
    (none : Option (List String)) ≠ some [""] :=
  ⟨rfl, by decide⟩

theorem renderStep_eq (i : ℕ) (buffer : ℤ) (ov : Bool) :
    (if i = 0 ∧ buffer < 0 then ((0 : ℤ), true)
     else if 0 < i ∧ buffer < 1 then ((1 : ℤ), true)
     else (buffer, ov)) =
    (max buffer (if i = 0 then 0 else 1),
     ov || decide (buffer < if i = 0 then 0 else 1)) := by
  by_cases hi : i = 0
  · subst hi
    by_cases hb : buffer < 0
    · rw [if_pos ⟨rfl, hb⟩, if_pos rfl, max_eq_right (le_of_lt hb)]
      simp [hb]
    · rw [if_neg (by simp [hb]), if_neg (by simp), if_pos rfl,
        max_eq_left (not_lt.mp hb)]
      simp [hb]
  · have hi0 : 0 < i := Nat.pos_of_ne_zero hi
    rw [if_neg (by simp [hi]), if_neg hi]
    by_cases hb : buffer < 1
    · rw [if_pos ⟨hi0, hb⟩, max_eq_right (by omega)]
      simp [hb]
    · rw [if_neg (by simp [hb]), max_eq_left (by omega)]
      simp [hb]

theorem zip_strip (labels : List (Option ℚ)) (strs : List String)
    (h : ∀ l ∈ labels, l.isSome = true) :
    (labels.zip strs).filterMap (fun p => (p.1).map (fun v => (v, p.2))) =
      (labels.filterMap id).zip strs := by
  induction labels generalizing strs with
  | nil => simp
  | cons o rest ih =>
      obtain ⟨v, rfl⟩ :=
        Option.isSome_iff_exists.mp (h o (List.mem_cons_self o rest))
      cases strs with
      | nil => simp
      | cons s st =>
          simp only [List.zip_cons_cons, List.filterMap_cons, Option.map_some',
            id_eq]
          rw [ih st (fun l hl => h l (List.mem_cons_of_mem _ hl))]

theorem renderLoop_eq_claim (x_min x_max : ℚ) (steps : ℤ)
    (pairs : List (Option ℚ × String)) :
    ∀ (i : ℕ) (line : String) (ov : Bool),
    (∀ p ∈ pairs, (p.1).isSome = true) →
    renderLoop x_min x_max steps pairs i line ov =
      some (claimPlaceAux x_min x_max steps
        (pairs.filterMap (fun p => (p.1).map (fun v => (v, p.2)))) i line ov) := by
  induction pairs with
  | nil => intro i line ov _; rfl
  | cons p rest ih =>
      intro i line ov h
      obtain ⟨o, s⟩ := p
      cases o with
      | none => exact absurd (h _ (List.mem_cons_self _ _)) (by simp)
      | some v =>
          have hrest : ∀ p ∈ rest, (p.1).isSome = true :=
            fun p hp => h p (List.mem_cons_of_mem _ hp)
          simp only [renderLoop, List.filterMap_cons, Option.map_some',
            claimPlaceAux]
          rw [ih (i + 1) _ _ hrest]
          rw [renderStep_eq i
            (max 0 (discretize v x_min x_max steps - ((s.length / 2 : ℕ) : ℤ) +
              LEFT_MARGIN_FOR_HORIZONTAL_AXIS) - (line.length : ℤ)) ov]
          rfl

/-- C2: for every `LabelSet` whose labels are all present, `render` builds
its single line by the left-to-right greedy placement the claim describes:
each label's intended start column is its discretized position minus half
its width (rounded down) plus the left margin, floored at 0; the buffer is
the intended start minus the current line length, clamped from below at 0
for the first label and at 1 for every later label, the overlap flag is
raised exactly when clamping occurred, and the buffer of spaces plus the
label string are appended.  (`discretize` is modelled from the spec.) -/
theorem render_places_labels_left_to_right (ls : LabelSet)
    (h : ∀ l ∈ ls.labels, l.isSome = true) :
    ls.render_and_measure = some (claimPlace ls) := by
  unfold LabelSet.render_and_measure claimPlace
  rw [renderLoop_eq_claim ls.x_min ls.x_max ls.available_space _ 0 "" false
      (fun p hp => h p.1 (List.of_mem_zip hp).1)]
  rw [zip_strip ls.labels _ h]

/-- Witness for C2 on the two-label set `[1, 2]` over `[0, 4]` with 10
columns of space. -/
theorem render_places_labels_left_to_right_witness :
    lsPairEx.render_and_measure = some (claimPlace lsPairEx) ∧
    lsPairEx.render_and_measure = some ("    1 2", false) :=
  ⟨render_places_labels_left_to_right lsPairEx (by decide),
   by with_unfolding_all decide⟩

theorem dedup_length_iff_nodup {l : List String} :
    l.dedup.length = l.length ↔ l.Nodup := by
  constructor
  · intro h
    exact List.dedup_eq_self.mp (List.Sublist.eq_of_length (List.dedup_sublist l) h)
  · intro h
    rw [List.dedup_eq_self.mpr h]

theorem fssrLoop_eq_find (numbers : List (Option ℚ)) (cands : List ℕ) :
    fssrLoop numbers cands =
      match cands.find? (fun nd =>
        decide (((numbers.filterMap id).map (fun n => float_format n nd)).Nodup)) with
      | some nd => numbers.map (fun o =>
          match o with | none => "" | some n => float_format n nd)
      | none => numbers.map (fun o =>
          match o with | none => "" | some n => naiveStr n) := by
  induction cands with
  | nil => rfl
  | cons nd rest ih =>
      by_cases hd : ((numbers.filterMap id).map (fun n => float_format n nd)).Nodup
      · have hlen : ((numbers.filterMap id).map
            (fun n => float_format n nd)).dedup.length =
            ((numbers.filterMap id).map (fun n => float_format n nd)).length :=
          dedup_length_iff_nodup.mpr hd
        rw [fssrLoop, if_pos hlen, List.find?_cons_of_pos _ (by simpa using hd)]
      · have hlen : ¬((numbers.filterMap id).map
            (fun n => float_format n nd)).dedup.length =
            ((numbers.filterMap id).map (fun n => float_format n nd)).length :=
          fun hc => hd (dedup_length_iff_nodup.mp hc)
        rw [fssrLoop, if_neg hlen, List.find?_cons_of_neg _ (by simpa using hd), ih]

/-- C3: the rendered label strings are those of the first precision `p` in
`0..9` at which the non-missing labels format pairwise distinct (precision 0
is the thousands-grouped integer format, precision `p > 0` formats with `p`
significant digits thousands-separated, and missing labels render as the
empty string); when no precision in `0..9` yields pairwise distinct strings,
each value's default/naive string form is used instead. -/
theorem shortest_representation_first_distinct_precision
    (numbers : List (Option ℚ)) :
    find_shortest_string_representation numbers =
      match (List.range 10).find? (fun nd =>
        decide (((numbers.filterMap id).map (fun n => float_format n nd)).Nodup)) with
      | some nd => numbers.map (fun o =>
          match o with | none => "" | some n => float_format n nd)
      | none => numbers.map (fun o =>
          match o with | none => "" | some n => naiveStr n) :=
  fssrLoop_eq_find numbers (List.range 10)
